import Mathlib

/-!
Verification development for the MinifyAi repository (`minifykit`).

Strings are modelled as `List Char` (`Str`).  Python's `re.sub` is modelled by
`reSub`, parameterised by a matcher that, given a suffix of the text, returns
the length of the (leftmost-at-this-position) match together with the text the
substitution emits for it.  The concrete regular expressions used by the
repository are embedded as concrete matcher functions.
-/

/-- Strings of the Python program are modelled as lists of characters. -/
abbrev Str := List Char

/-- The ASCII whitespace characters matched by Python's `\s` and stripped by
`str.strip()`: space, tab, newline, carriage return, vertical tab, form feed. -/
def isPySpace (c : Char) : Bool :=
  c = ' ' || c = '\t' || c = '\n' || c = '\r' || c = Char.ofNat 11 || c = Char.ofNat 12

/-- `isPre p s` holds when `p` is a prefix of `s` (Python `s.startswith(p)`). -/
def isPre : List Char → List Char → Bool
  | [], _ => true
  | _ :: _, [] => false
  | a :: as, b :: bs => a = b && isPre as bs

/-- Python `s.endswith(p)`. -/
def pyEndsWith (s p : List Char) : Bool :=
  isPre p.reverse s.reverse

/-- Remove leading Python whitespace (Python `str.lstrip()`). -/
def pyLStrip (s : List Char) : List Char :=
  s.dropWhile isPySpace

/-- Python `str.strip()`: remove leading and trailing whitespace. -/
def pyStrip (s : List Char) : List Char :=
  ((s.dropWhile isPySpace).reverse.dropWhile isPySpace).reverse

/-- Python `code.split('\n')`.  The empty string yields `[""]`. -/
def splitNL : List Char → List (List Char)
  | [] => [[]]
  | c :: rest =>
    if c = '\n' then [] :: splitNL rest
    else
      match splitNL rest with
      | l :: ls => (c :: l) :: ls
      | [] => [[c]]

/-- Python `'\n'.join(lines)`. -/
def joinNL : List (List Char) → List Char
  | [] => []
  | [l] => l
  | l :: l' :: rest => l ++ '\n' :: joinNL (l' :: rest)

/-- Least index `k` such that `pat` occurs in `s` starting at `k`
(Python `s.find(pat)` restricted to a found result). -/
def findSub (pat : List Char) : List Char → Option Nat
  | [] => if pat = [] then some 0 else none
  | c :: rest =>
    if isPre pat (c :: rest) then some 0
    else (findSub pat rest).map (· + 1)

/-- Least index `k` such that `pat` occurs at `k` with no newline among the
skipped characters (matches what a lazy `.*?` without DOTALL can consume). -/
def findOnLine (pat : List Char) : List Char → Option Nat
  | [] => if pat = [] then some 0 else none
  | c :: rest =>
    if isPre pat (c :: rest) then some 0
    else if c = '\n' then none
    else (findOnLine pat rest).map (· + 1)

/-- A substitution matcher: given a suffix of the text, the length of the
match starting exactly there (if any) and the text emitted in its place. -/
def SubM := List Char → Option (Nat × List Char)

/-- Model of Python `re.sub`: scan left to right; at each position, if the
matcher matches, emit its replacement and skip the matched span (after an
empty match the current character is copied and scanning resumes one further
on, as in Python 3.7+); otherwise copy the character. -/
def reSub (m : SubM) : List Char → List Char
  | [] =>
    match m [] with
    | some (_, r) => r
    | none => []
  | c :: rest =>
    match m (c :: rest) with
    | some (0, r) => r ++ c :: reSub m rest
    | some (n + 1, r) => r ++ reSub m (rest.drop n)
    | none => c :: reSub m rest
termination_by s => s.length
decreasing_by
  all_goals (simp [List.length_drop]; try omega)

/-! ### Concrete patterns used by the repository

Each regular expression that the repository passes to `re.sub` is embedded as
a concrete matcher.  A `Pattern` returns the length of the match starting at
the head of the given suffix, if any. -/

/-- A comment pattern: match length at the start of a suffix, if any. -/
def Pattern := List Char → Option Nat

/-- A single quote character (`'`). -/
def squote : Char := Char.ofNat 39

/-- Length of the maximal run of non-newline characters (what a greedy `.*`
without DOTALL consumes). -/
def lineRun (s : List Char) : Nat :=
  (s.takeWhile (fun c => c ≠ '\n')).length

/-- Python pattern `#.*$` with MULTILINE (Python minifier, single-line). -/
def pyHashMatch : Pattern := fun s =>
  match s with
  | '#' :: rest => some (1 + lineRun rest)
  | _ => none

/-- Python pattern `""".*?"""|'''.*?'''` with DOTALL (Python minifier,
multi-line): at a position starting with a triple quote, the lazy `.*?`
runs to the first closing triple quote of the same kind. -/
def pyTripleQuoteMatch : Pattern := fun s =>
  if isPre ('"' :: '"' :: '"' :: []) s then
    (findSub ('"' :: '"' :: '"' :: []) (s.drop 3)).map (fun k => k + 6)
  else if isPre (squote :: squote :: squote :: []) s then
    (findSub (squote :: squote :: squote :: []) (s.drop 3)).map (fun k => k + 6)
  else none

/-- Python pattern `//.*$` with MULTILINE (JavaScript minifier, single-line). -/
def jsLineMatch : Pattern := fun s =>
  match s with
  | '/' :: '/' :: rest => some (2 + lineRun rest)
  | _ => none

/-- Python pattern `/\*.*?\*/` with DOTALL (JavaScript and CSS minifiers,
multi-line). -/
def jsBlockMatch : Pattern := fun s =>
  match s with
  | '/' :: '*' :: rest => (findSub ('*' :: '/' :: []) rest).map (fun k => k + 4)
  | _ => none

/-- Python pattern `<!--.*?-->` with DOTALL (HTML minifier, multi-line). -/
def htmlCommentMatch : Pattern := fun s =>
  if isPre ('<' :: '!' :: '-' :: '-' :: []) s then
    (findSub ('-' :: '-' :: '>' :: []) (s.drop 4)).map (fun k => k + 7)
  else none

/-- Python pattern `\/*.*?\*/|//.*` with MULTILINE (HTML minifier,
single-line).  The first alternative is zero-or-more slashes, then a lazy
non-newline span up to a literal `*/`; since the slash run contains no `*`,
its greedy backtracking reduces to: find the first `*/` at or after the run,
reachable without crossing a newline.  Otherwise `//.*` matches a `//` line
tail. -/
def htmlSingleMatch : Pattern := fun s =>
  let j := (s.takeWhile (fun c => c = '/')).length
  match findOnLine ('*' :: '/' :: []) (s.drop j) with
  | some k => some (j + k + 2)
  | none =>
    match s with
    | '/' :: '/' :: rest => some (2 + lineRun rest)
    | _ => none

/-- Matcher for `\s+` replaced by a single space (`re.sub(r'\s+', ' ', ·)`). -/
def wsSubM : SubM := fun s =>
  match s with
  | [] => none
  | c :: _ =>
    if isPySpace c then some ((s.takeWhile isPySpace).length, [' ']) else none

/-- Matcher for `\s*([cls])\s*` replaced by the captured character
(`re.sub(pattern, r'\1', ·)`): a whitespace run, one character of the class,
a whitespace run; the replacement is the class character. -/
def opClassSubM (cls : List Char) : SubM := fun s =>
  let a := (s.takeWhile isPySpace).length
  match s.drop a with
  | c :: rest =>
    if c ∈ cls then some (a + 1 + (rest.takeWhile isPySpace).length, [c])
    else none
  | [] => none

/-- The default pattern list of `OperatorSpaceRemovalAction`, as the character
classes of its four `\s*([...])\s*` patterns, in source order. -/
def opDefaultPatterns : List (List Char) :=
  [['(', ')'],
   ['{', '}'],
   ['[', ']'],
   ['+', '%', '-', '*', '/', '=', '<', '>', '!', '&', '|', ':', ',']]

/-! ### The Action data model (`minifykit.core.actions`) -/

/-- The Action variants of `basic_actions.py`, plus the name-overriding
wrapper class created by the factory (`NamedAction`).  Comment patterns are
carried as embedded matchers; operator patterns as character classes of the
`\s*([...])\s*` shape every pattern in the repository has. -/
inductive MinificationAction where
  | commentRemoval (single_line_pattern multi_line_pattern : Option Pattern)
  | whitespaceReduction (preserve_newlines : Bool)
  | emptyLineRemoval
  | operatorSpaceRemoval (patterns : List (List Char))
  | lineJoining (separator : Str)
  | composite (actions : List MinificationAction)
  | named (inner : MinificationAction) (nm : Str)

/-- Turn a comment pattern into an empty-replacement substitution
(`re.sub(pattern, '', code)`). -/
def patSub (p : Pattern) : SubM := fun s => (p s).map (fun n => (n, []))

/-- `CommentRemovalAction.apply`: multi-line pattern first (DOTALL), then
single-line pattern (MULTILINE), each only when present. -/
def commentRemovalApply (single_line_pattern multi_line_pattern : Option Pattern)
    (code : Str) : Str :=
  let c1 :=
    match multi_line_pattern with
    | some p => reSub (patSub p) code
    | none => code
  match single_line_pattern with
  | some p => reSub (patSub p) c1
  | none => c1

/-- `WhitespaceReductionAction.apply`. -/
def whitespaceReductionApply (preserve_newlines : Bool) (code : Str) : Str :=
  if preserve_newlines then
    joinNL ((splitNL code).map (fun line => pyStrip (reSub wsSubM line)))
  else
    pyStrip (reSub wsSubM code)

/-- `EmptyLineRemovalAction.apply`. -/
def emptyLineRemovalApply (code : Str) : Str :=
  joinNL ((splitNL code).filter (fun line => !(pyStrip line).isEmpty))

/-- `OperatorSpaceRemovalAction.apply`: one full-text substitution pass per
pattern, in list order. -/
def operatorSpaceRemovalApply (patterns : List (List Char)) (code : Str) : Str :=
  patterns.foldl (fun acc cls => reSub (opClassSubM cls) acc) code

/-- The contribution of one retained line in `LineJoiningAction.apply`:
`line[:-1]` when the line ends with the separator, else the line. -/
def lineContrib (separator line : Str) : Str :=
  if pyEndsWith line separator then line.dropLast else line

/-- The accumulation loop of `LineJoiningAction.apply`: separator before every
element but the first, each element contributed by `lineContrib`. -/
def joinContrib (separator : Str) : List Str → Str
  | [] => []
  | [l] => lineContrib separator l
  | l :: l' :: rest => lineContrib separator l ++ separator ++ joinContrib separator (l' :: rest)

/-- `LineJoiningAction.apply`. -/
def lineJoiningApply (separator : Str) (code : Str) : Str :=
  joinContrib separator
    (((splitNL code).filter (fun l => !(pyStrip l).isEmpty)).map pyStrip)

mutual

/-- `MinificationAction.apply` for every Action variant;
`CompositeMinificationAction.apply` threads each action's output into the
next via `applyListAux`. -/
def MinificationAction.apply : MinificationAction → Str → Str
  | .commentRemoval sp mp, code => commentRemovalApply sp mp code
  | .whitespaceReduction pn, code => whitespaceReductionApply pn code
  | .emptyLineRemoval, code => emptyLineRemovalApply code
  | .operatorSpaceRemoval pats, code => operatorSpaceRemovalApply pats code
  | .lineJoining sep, code => lineJoiningApply sep code
  | .composite as, code => applyListAux as code
  | .named inner _, code => inner.apply code

/-- The loop of `CompositeMinificationAction.apply`:
`result = code; for action in actions: result = action.apply(result)`. -/
def applyListAux : List MinificationAction → Str → Str
  | [], code => code
  | a :: rest, code => applyListAux rest (a.apply code)

end

/-- `'+'.join(names)` used by the Composite name. -/
def joinPlus : List Str → Str
  | [] => []
  | [n] => n
  | n :: n' :: rest => n ++ '+' :: joinPlus (n' :: rest)

mutual

/-- The `name` property: the class name for basic actions
(`self.__class__.__name__`), the `Composite(...)` form for composites, and
the override string for the factory's `NamedAction` wrapper. -/
def MinificationAction.name : MinificationAction → Str
  | .commentRemoval _ _ => ("CommentRemovalAction".data)
  | .whitespaceReduction _ => ("WhitespaceReductionAction".data)
  | .emptyLineRemoval => ("EmptyLineRemovalAction".data)
  | .operatorSpaceRemoval _ => ("OperatorSpaceRemovalAction".data)
  | .lineJoining _ => ("LineJoiningAction".data)
  | .composite as => ("Composite(".data) ++ joinPlus (nameList as) ++ (")".data)
  | .named _ nm => nm

/-- The list comprehension `[action.name for action in self.actions]`. -/
def nameList : List MinificationAction → List Str
  | [] => []
  | a :: rest => a.name :: nameList rest

end

/-! ### The Action factory (`minifykit.core.actions.factory`) -/

/-- The keys of the factory's `action_classes` dictionary. -/
def knownActionTypes : List Str :=
  [("whitespace".data), ("comments".data), ("empty_lines".data),
   ("operators".data), ("line_joining".data)]

/-- `patterns or [...]` in `OperatorSpaceRemovalAction.__init__`: `None` and
the empty list both fall back to the default patterns (Python truthiness). -/
def opPatternsOrDefault (patterns : Option (List (List Char))) : List (List Char) :=
  match patterns with
  | some (p :: ps) => p :: ps
  | _ => opDefaultPatterns

/-- The keyword arguments `create_action` can forward to an action
constructor, with the constructors' default values. -/
structure ActionKwargs where
  preserve_newlines : Bool
  single_line_pattern : Option Pattern
  multi_line_pattern : Option Pattern
  patterns : Option (List (List Char))
  separator : Str

/-- Keyword arguments left entirely to the constructors' defaults. -/
def defaultKwargs : ActionKwargs :=
  { preserve_newlines := false
    single_line_pattern := none
    multi_line_pattern := none
    patterns := none
    separator := [';'] }

/-- `action_class(**kwargs)`: dispatch of the recognized type tags to the
action constructors. -/
def buildActionOfType (action_type : Str) (kw : ActionKwargs) : MinificationAction :=
  if action_type = ("whitespace".data) then
    .whitespaceReduction kw.preserve_newlines
  else if action_type = ("comments".data) then
    .commentRemoval kw.single_line_pattern kw.multi_line_pattern
  else if action_type = ("empty_lines".data) then
    .emptyLineRemoval
  else if action_type = ("operators".data) then
    .operatorSpaceRemoval (opPatternsOrDefault kw.patterns)
  else
    .lineJoining kw.separator

/-- `create_action`: raises `ValueError` for an unrecognized type tag; wraps
the built action in the name-overriding `NamedAction` when `if name:` is
truthy — a `None` name and an empty-string name both skip the wrapper. -/
def create_action (action_type : Str) (nm : Option Str) (kw : ActionKwargs) :
    Except Str MinificationAction :=
  if action_type ∈ knownActionTypes then
    let action := buildActionOfType action_type kw
    match nm with
    | some n => if n.isEmpty then .ok action else .ok (.named action n)
    | none => .ok action
  else
    .error (("Unknown action type: ".data) ++ action_type)

/-! ### Language minifiers (`minifykit.core.languages`) -/

/-- `PythonMinifier`: toggles plus the cached Composite (`self._action`). -/
structure PythonMinifier where
  preserve_newlines : Bool
  preserve_docstrings : Bool
  action : MinificationAction

/-- `PythonMinifier._create_action` as a function of the current toggles. -/
def PythonMinifier.create_action (preserve_newlines preserve_docstrings : Bool) :
    MinificationAction :=
  let base : List MinificationAction :=
    if preserve_docstrings then
      [.commentRemoval (some pyHashMatch) none]
    else
      [.commentRemoval (some pyHashMatch) (some pyTripleQuoteMatch)]
  let base := base ++ [.whitespaceReduction preserve_newlines, .emptyLineRemoval]
  let base :=
    if !preserve_newlines then base ++ [.operatorSpaceRemoval opDefaultPatterns]
    else base
  .composite base

/-- `PythonMinifier.__init__` (defaults: `preserve_newlines=True`,
`preserve_docstrings=False`). -/
def PythonMinifier.make (preserve_newlines preserve_docstrings : Bool) : PythonMinifier :=
  { preserve_newlines := preserve_newlines
    preserve_docstrings := preserve_docstrings
    action := PythonMinifier.create_action preserve_newlines preserve_docstrings }

/-- `PythonMinifier.set_preserve_newlines`: rebuild only on a changed value. -/
def PythonMinifier.set_preserve_newlines (m : PythonMinifier) (preserve : Bool) :
    PythonMinifier :=
  if m.preserve_newlines ≠ preserve then
    { preserve_newlines := preserve
      preserve_docstrings := m.preserve_docstrings
      action := PythonMinifier.create_action preserve m.preserve_docstrings }
  else m

/-- `PythonMinifier.set_preserve_docstrings`: rebuild only on a changed value. -/
def PythonMinifier.set_preserve_docstrings (m : PythonMinifier) (preserve : Bool) :
    PythonMinifier :=
  if m.preserve_docstrings ≠ preserve then
    { preserve_newlines := m.preserve_newlines
      preserve_docstrings := preserve
      action := PythonMinifier.create_action m.preserve_newlines preserve }
  else m

/-- `PythonMinifier.minify`: delegate to the cached Composite. -/
def PythonMinifier.minify (m : PythonMinifier) (code : Str) : Str :=
  m.action.apply code

/-- `JavaScriptMinifier`: toggles plus the cached Composite. -/
structure JavaScriptMinifier where
  preserve_newlines : Bool
  aggressive : Bool
  action : MinificationAction

/-- `JavaScriptMinifier._create_action` as a function of the toggles. -/
def JavaScriptMinifier.create_action (preserve_newlines aggressive : Bool) :
    MinificationAction :=
  let base : List MinificationAction :=
    [.commentRemoval (some jsLineMatch) (some jsBlockMatch),
     .whitespaceReduction preserve_newlines,
     .emptyLineRemoval]
  let base :=
    if aggressive || !preserve_newlines then
      base ++ [.operatorSpaceRemoval opDefaultPatterns]
    else base
  .composite base

/-- `JavaScriptMinifier.__init__`. -/
def JavaScriptMinifier.make (preserve_newlines aggressive : Bool) : JavaScriptMinifier :=
  { preserve_newlines := preserve_newlines
    aggressive := aggressive
    action := JavaScriptMinifier.create_action preserve_newlines aggressive }

/-- `JavaScriptMinifier.set_preserve_newlines`. -/
def JavaScriptMinifier.set_preserve_newlines (m : JavaScriptMinifier) (preserve : Bool) :
    JavaScriptMinifier :=
  if m.preserve_newlines ≠ preserve then
    { preserve_newlines := preserve
      aggressive := m.aggressive
      action := JavaScriptMinifier.create_action preserve m.aggressive }
  else m

/-- `JavaScriptMinifier.set_aggressive`. -/
def JavaScriptMinifier.set_aggressive (m : JavaScriptMinifier) (aggressive : Bool) :
    JavaScriptMinifier :=
  if m.aggressive ≠ aggressive then
    { preserve_newlines := m.preserve_newlines
      aggressive := aggressive
      action := JavaScriptMinifier.create_action m.preserve_newlines aggressive }
  else m

/-- `JavaScriptMinifier.minify`. -/
def JavaScriptMinifier.minify (m : JavaScriptMinifier) (code : Str) : Str :=
  m.action.apply code

/-- `CSSMinifier._action` (fixed recipe, no toggles). -/
def CSSMinifier.action : MinificationAction :=
  .composite
    [.commentRemoval none (some jsBlockMatch),
     .whitespaceReduction false,
     .emptyLineRemoval,
     .operatorSpaceRemoval opDefaultPatterns]

/-- `CSSMinifier.minify`. -/
def CSSMinifier.minify (code : Str) : Str :=
  CSSMinifier.action.apply code

/-- `HTMLMinifier`: toggle plus the cached Composite. -/
structure HTMLMinifier where
  preserve_newlines : Bool
  action : MinificationAction

/-- `HTMLMinifier._create_action` as a function of the toggle. -/
def HTMLMinifier.create_action (preserve_newlines : Bool) : MinificationAction :=
  .composite
    [.commentRemoval (some htmlSingleMatch) (some htmlCommentMatch),
     .whitespaceReduction preserve_newlines,
     .emptyLineRemoval]

/-- `HTMLMinifier.__init__`. -/
def HTMLMinifier.make (preserve_newlines : Bool) : HTMLMinifier :=
  { preserve_newlines := preserve_newlines
    action := HTMLMinifier.create_action preserve_newlines }

/-- `HTMLMinifier.set_preserve_newlines`. -/
def HTMLMinifier.set_preserve_newlines (m : HTMLMinifier) (preserve : Bool) :
    HTMLMinifier :=
  if m.preserve_newlines ≠ preserve then
    { preserve_newlines := preserve
      action := HTMLMinifier.create_action preserve }
  else m

/-- `HTMLMinifier.minify`. -/
def HTMLMinifier.minify (m : HTMLMinifier) (code : Str) : Str :=
  m.action.apply code

/-- The minifier returned by `create_custom_minifier`: a name, an extension
list, and the supplied action list (held by reference in the source). -/
structure CustomMinifier where
  name : Str
  file_extensions : List Str
  actions : List MinificationAction

/-- `create_custom_minifier`. -/
def create_custom_minifier (name : Str) (extensions : List Str)
    (actions : List MinificationAction) : CustomMinifier :=
  { name := name, file_extensions := extensions, actions := actions }

/-- `CustomMinifier.minify`: builds a fresh Composite from the current action
list on every call. -/
def CustomMinifier.minify (m : CustomMinifier) (code : Str) : Str :=
  (MinificationAction.composite m.actions).apply code

/-! ### File and project layer (`minifykit.file`, `minifykit.project`)

The file system is modelled as an association list from paths to contents;
`write_file` overwrites in place or appends.  The walk order of `os.walk` is
modelled as an explicit list of `(foldername, filename)` pairs, and the
registry as a function from extensions to optional minify functions.  The set
of extensions to process (derived by `_get_extensions_to_process` in the
source) is taken as a parameter. -/

/-- Index of the last occurrence of `c` in `s`, if any (Python `s.rfind(c)`). -/
def rfindIdx (c : Char) : Str → Option Nat
  | [] => none
  | a :: rest =>
    match rfindIdx c rest with
    | some i => some (i + 1)
    | none => if a = c then some 0 else none

/-- `os.path.splitext`: split at the last dot of the final path component,
unless that component consists only of leading dots up to it. -/
def splitext (p : Str) : Str × Str :=
  match rfindIdx '.' p with
  | none => (p, [])
  | some d =>
    let s :=
      match rfindIdx '/' p with
      | none => 0
      | some i => i + 1
    if d < s then (p, [])
    else if ((p.drop s).take (d - s)).any (fun c => c ≠ '.') then (p.take d, p.drop d)
    else (p, [])

/-- `FileProcessor.get_minified_path`: insert the suffix before the final
extension. -/
def get_minified_path (file_path suffix : Str) : Str :=
  (splitext file_path).1 ++ suffix ++ (splitext file_path).2

/-- `FileProcessor.read_file` over the modelled file system. -/
def readFile (fs : List (Str × Str)) (p : Str) : Option Str :=
  match fs with
  | [] => none
  | (q, c) :: rest => if q = p then some c else readFile rest p

/-- `FileProcessor.write_file` over the modelled file system. -/
def writeFile (fs : List (Str × Str)) (p c : Str) : List (Str × Str) :=
  match fs with
  | [] => [(p, c)]
  | (q, c') :: rest => if q = p then (q, c) :: rest else (q, c') :: writeFile rest p c

/-- `MinificationJob.execute`: read, minify, skip the write when the derived
path already holds byte-identical content (returning `False`), else write
(returning `True`).  A read failure raises (modelled as `none`) and is caught
by the caller.  The result carries the updated file system and the list of
write events performed. -/
def jobExecute (fs : List (Str × Str)) (mf : Str → Str) (file_path suffix : Str) :
    Option (Bool × List (Str × Str) × List (Str × Str)) :=
  match readFile fs file_path with
  | none => none
  | some code =>
    let minified_code := mf code
    let minified_path := get_minified_path file_path suffix
    match readFile fs minified_path with
    | some existing =>
      if existing = minified_code then some (false, fs, [])
      else some (true, writeFile fs minified_path minified_code,
                 [(minified_path, minified_code)])
    | none => some (true, writeFile fs minified_path minified_code,
                    [(minified_path, minified_code)])

/-- The state threaded through `ProjectMinifier.minify_project`'s walk. -/
structure ProjState where
  fs : List (Str × Str)
  processed : Nat
  skipped : Nat
  writes : List (Str × Str)

/-- One file of the walk in `ProjectMinifier.minify_project`: skip-listed
directories are passed over; a filename containing `.min.` increments
`skipped`; otherwise a file with an eligible extension and a registered
minifier runs a `MinificationJob`, incrementing `processed` exactly when the
job wrote (exceptions are swallowed). -/
def minifyStep (registry : Str → Option (Str → Str)) (files_to_skip : List Str)
    (exts : List Str) (suffix : Str) (st : ProjState) (f : Str × Str) : ProjState :=
  let folder := f.1
  let filename := f.2
  if files_to_skip.any (fun sk => (findSub sk folder).isSome) then st
  else if (findSub (".min.".data) filename).isSome then
    { st with skipped := st.skipped + 1 }
  else
    let file_ext := ((splitext filename).2).map Char.toLower
    if file_ext ∈ exts then
      match registry file_ext with
      | some mf =>
        let file_path := folder ++ '/' :: filename
        match jobExecute st.fs mf file_path suffix with
        | some (wrote, fs', ws) =>
          if wrote then
            { fs := fs', processed := st.processed + 1, skipped := st.skipped,
              writes := st.writes ++ ws }
          else
            { st with fs := fs' }
        | none => st
      | none => st
    else st

/-- `ProjectMinifier.minify_project`: fold the walk over the initial state and
return the final counters, file system and write trace. -/
def minify_project (registry : Str → Option (Str → Str)) (files_to_skip : List Str)
    (exts : List Str) (suffix : Str) (files : List (Str × Str))
    (fs0 : List (Str × Str)) : ProjState :=
  files.foldl (minifyStep registry files_to_skip exts suffix)
    { fs := fs0, processed := 0, skipped := 0, writes := [] }

/-- Modelled from the spec (claim C9's words): a skipped file is either one
already carrying the minified suffix marker or one whose derived-path output
already exists with byte-identical content (no write).  This traversal counts
those skips. -/
def claimSkipStep (registry : Str → Option (Str → Str)) (files_to_skip : List Str)
    (exts : List Str) (suffix : Str) (st : List (Str × Str) × Nat) (f : Str × Str) :
    List (Str × Str) × Nat :=
  let folder := f.1
  let filename := f.2
  if files_to_skip.any (fun sk => (findSub sk folder).isSome) then st
  else if (findSub (".min.".data) filename).isSome then (st.1, st.2 + 1)
  else
    let file_ext := ((splitext filename).2).map Char.toLower
    if file_ext ∈ exts then
      match registry file_ext with
      | some mf =>
        let file_path := folder ++ '/' :: filename
        match jobExecute st.1 mf file_path suffix with
        | some (wrote, fs', _) =>
          if wrote then (fs', st.2) else (fs', st.2 + 1)
        | none => st
      | none => st
    else st

/-- Modelled from the spec (claim C9's words): the skipped count the claim
describes. -/
def claimSkippedCount (registry : Str → Option (Str → Str)) (files_to_skip : List Str)
    (exts : List Str) (suffix : Str) (files : List (Str × Str))
    (fs0 : List (Str × Str)) : Nat :=
  (files.foldl (claimSkipStep registry files_to_skip exts suffix) (fs0, 0)).2

/-! ### Reference definitions following the spec's wording -/

/-- Spec wording for whitespace reduction: every whitespace run collapsed to
a single space. -/
def collapseRuns : List Char → List Char
  | [] => []
  | c :: rest =>
    if isPySpace c then ' ' :: collapseRuns (rest.dropWhile isPySpace)
    else c :: collapseRuns rest
termination_by s => s.length
decreasing_by
  all_goals simp
  · have := (List.dropWhile_sublist (l := rest) isPySpace).length_le
    omega

/-- Spec wording for line joining: concatenate with the separator between
lines. -/
def specJoin (sep : Str) : List Str → Str
  | [] => []
  | [l] => l
  | l :: l' :: rest => l ++ sep ++ specJoin sep (l' :: rest)

/-- Spec wording: remove the (whole) trailing separator from a line that
already ends with it. -/
def stripTrailingSep (sep t : Str) : Str :=
  if pyEndsWith t sep then t.take (t.length - sep.length) else t

/-- Spec wording for `LineJoining.apply`: drop blank lines, trim the rest,
remove a trailing separator, join with the separator. -/
def lineJoinSpec (sep code : Str) : Str :=
  specJoin sep
    ((((splitNL code).filter (fun l => !(pyStrip l).isEmpty)).map pyStrip).map
      (stripTrailingSep sep))

/-! ### Helper lemmas about `reSub` -/

theorem reSub_cons_none {m : SubM} {c : Char} {rest : List Char}
    (h : m (c :: rest) = none) :
    reSub m (c :: rest) = c :: reSub m rest := by
  simp only [reSub, h]

theorem reSub_cons_pos {m : SubM} {c : Char} {rest : List Char} {n : Nat} {r : List Char}
    (h : m (c :: rest) = some (n + 1, r)) :
    reSub m (c :: rest) = r ++ reSub m (rest.drop n) := by
  simp only [reSub, h]

theorem reSub_nil_none (m : SubM) (h : m [] = none) : reSub m [] = [] := by
  simp only [reSub, h]

theorem drop_length_takeWhile (p : Char → Bool) (l : List Char) :
    l.drop (l.takeWhile p).length = l.dropWhile p := by
  induction l with
  | nil => rfl
  | cons c rest ih =>
    by_cases h : p c
    · simp [List.takeWhile_cons, List.dropWhile_cons, h, ih]
    · simp [List.takeWhile_cons, List.dropWhile_cons, h]

theorem reSub_ws_eq_aux : ∀ (n : Nat) (s : List Char), s.length ≤ n →
    reSub wsSubM s = collapseRuns s := by
  intro n
  induction n with
  | zero =>
    intro s hs
    cases s with
    | nil => rw [reSub_nil_none wsSubM rfl]; simp [collapseRuns]
    | cons c rest => simp at hs
  | succ n ih =>
    intro s hs
    cases s with
    | nil => rw [reSub_nil_none wsSubM rfl]; simp [collapseRuns]
    | cons c rest =>
      by_cases h : isPySpace c
      · have hm : wsSubM (c :: rest) =
            some ((rest.takeWhile isPySpace).length + 1, [' ']) := by
          simp [wsSubM, h, List.takeWhile_cons]
        rw [reSub_cons_pos hm, drop_length_takeWhile]
        have hlen : (rest.dropWhile isPySpace).length ≤ n := by
          have := (List.dropWhile_sublist (l := rest) isPySpace).length_le
          simp at hs
          omega
        rw [ih _ hlen]
        simp [collapseRuns, h]
      · have hm : wsSubM (c :: rest) = none := by simp [wsSubM, h]
        rw [reSub_cons_none hm]
        have hlen : rest.length ≤ n := by simp at hs; omega
        rw [ih _ hlen]
        simp [collapseRuns, h]

/-- `re.sub(r'\s+', ' ', s)` collapses every whitespace run to one space. -/
theorem reSub_ws_eq (s : List Char) : reSub wsSubM s = collapseRuns s :=
  reSub_ws_eq_aux s.length s (Nat.le_refl _)

/-- A substitution whose matcher matches on no suffix leaves the text
unchanged. -/
theorem reSub_no_match {m : SubM} :
    ∀ s : List Char, (∀ s', s' <:+ s → m s' = none) → reSub m s = s := by
  intro s
  induction s with
  | nil => intro h; exact reSub_nil_none m (h [] (List.suffix_refl []))
  | cons c rest ih =>
    intro h
    rw [reSub_cons_none (h (c :: rest) (List.suffix_refl _))]
    rw [ih (fun s' hs' => h s' (hs'.trans (List.suffix_cons c rest)))]

/-- A suffix of `t` is a `drop` of `t` at an index within bounds. -/
theorem suffix_is_drop {s' t : List Char} (h : s' <:+ t) :
    ∃ i, i ≤ t.length ∧ t.drop i = s' := by
  obtain ⟨pre, hpre⟩ := h
  refine ⟨pre.length, ?_, ?_⟩
  · rw [← hpre]; simp
  · rw [← hpre]; exact List.drop_left pre s'

/-- C1: for every Action variant of the repository — CommentRemoval,
WhitespaceReduction, EmptyLineRemoval, OperatorSpaceRemoval, LineJoining and
Composite, with any parameters (covering the defaults and every built-in
configuration) — and every string input including the empty string, `apply`
is total: it returns a string and never raises. -/
theorem c1_apply_total (a : MinificationAction) (s : Str) :
    ∃ r : Str, a.apply s = r :=
  ⟨a.apply s, rfl⟩

/-- C2: applying `Composite([A,B])` and then `C` equals applying
`Composite([A,B,C])`; `Composite.apply` threads each action's output into the
next action; the empty Composite is the identity on every string. -/
theorem c2_composite_assoc (A B C : MinificationAction) (t : Str) :
    C.apply ((MinificationAction.composite [A, B]).apply t)
      = (MinificationAction.composite [A, B, C]).apply t
  ∧ (∀ (a : MinificationAction) (as : List MinificationAction) (s : Str),
      (MinificationAction.composite (a :: as)).apply s
        = (MinificationAction.composite as).apply (a.apply s))
  ∧ (∀ s : Str, (MinificationAction.composite []).apply s = s) := by
  refine ⟨?_, ?_, ?_⟩
  · simp [MinificationAction.apply, applyListAux]
  · intro a as s
    simp [MinificationAction.apply, applyListAux]
  · intro s
    simp [MinificationAction.apply, applyListAux]

/-- C3: with `preserveNewlines=true`, WhitespaceReduction maps `t` to the
newline-join of its lines with every whitespace run collapsed to one space
and each line trimmed; with `preserveNewlines=false` it collapses every
whitespace run of the whole text (newlines included) and trims the result. -/
theorem c3_whitespace_reduction (t : Str) :
    whitespaceReductionApply true t
      = joinNL ((splitNL t).map (fun l => pyStrip (collapseRuns l)))
  ∧ whitespaceReductionApply false t = pyStrip (collapseRuns t) := by
  constructor
  · simp [whitespaceReductionApply, reSub_ws_eq]
  · simp [whitespaceReductionApply, reSub_ws_eq]

/-- C4: CommentRemoval with both patterns absent is the identity on every
string; with both patterns present but matching at no position of `t`,
`apply(t) = t`. -/
theorem c4_comment_removal_identity (sp mp : Pattern) (t : Str)
    (hs : ∀ i, i ≤ t.length → sp (t.drop i) = none)
    (hm : ∀ i, i ≤ t.length → mp (t.drop i) = none) :
    commentRemovalApply none none t = t
  ∧ commentRemovalApply (some sp) (some mp) t = t := by
  constructor
  · rfl
  · have key : ∀ (p : Pattern), (∀ i, i ≤ t.length → p (t.drop i) = none) →
        reSub (patSub p) t = t := by
      intro p hp
      apply reSub_no_match
      intro s' hs'
      obtain ⟨i, hi, hdrop⟩ := suffix_is_drop hs'
      simp [patSub, ← hdrop, hp i hi]
    show reSub (patSub sp) (reSub (patSub mp) t) = t
    rw [key mp hm, key sp hs]

/-- Witness for C4 at the Python minifier's built-in patterns and `t = "abc"`. -/
theorem c4_comment_removal_identity_witness :
    commentRemovalApply none none ("abc".data) = ("abc".data)
  ∧ commentRemovalApply (some pyHashMatch) (some pyTripleQuoteMatch) ("abc".data)
      = ("abc".data) :=
  c4_comment_removal_identity pyHashMatch pyTripleQuoteMatch ("abc".data)
    (by decide) (by decide)

/-- C5: for the Python, JavaScript and HTML minifiers, calling a toggle
setter with the value already current leaves the minifier — in particular its
internal Composite — identical, and `minify` output afterwards is
byte-identical to before. -/
theorem c5_toggle_noop (pm : PythonMinifier) (jm : JavaScriptMinifier)
    (hm : HTMLMinifier) (t : Str) :
    pm.set_preserve_newlines pm.preserve_newlines = pm
  ∧ (pm.set_preserve_newlines pm.preserve_newlines).minify t = pm.minify t
  ∧ pm.set_preserve_docstrings pm.preserve_docstrings = pm
  ∧ (pm.set_preserve_docstrings pm.preserve_docstrings).minify t = pm.minify t
  ∧ jm.set_preserve_newlines jm.preserve_newlines = jm
  ∧ (jm.set_preserve_newlines jm.preserve_newlines).minify t = jm.minify t
  ∧ jm.set_aggressive jm.aggressive = jm
  ∧ (jm.set_aggressive jm.aggressive).minify t = jm.minify t
  ∧ hm.set_preserve_newlines hm.preserve_newlines = hm
  ∧ (hm.set_preserve_newlines hm.preserve_newlines).minify t = hm.minify t := by
  refine ⟨?_, ?_, ?_, ?_, ?_, ?_, ?_, ?_, ?_, ?_⟩ <;>
    simp [PythonMinifier.set_preserve_newlines, PythonMinifier.set_preserve_docstrings,
      JavaScriptMinifier.set_preserve_newlines, JavaScriptMinifier.set_aggressive,
      HTMLMinifier.set_preserve_newlines]

/-- C8: a custom minifier built from a name, an extension list and an action
list applies a Composite built from the current action list on each call;
with the empty action list, `minify` is the identity; output tracks the
list's contents, as the concrete disequality shows. -/
theorem c8_custom_minifier (name : Str) (exts : List Str)
    (actions : List MinificationAction) (t : Str) :
    (create_custom_minifier name exts []).minify t = t
  ∧ (create_custom_minifier name exts actions).minify t
      = (MinificationAction.composite actions).apply t
  ∧ (create_custom_minifier name exts [MinificationAction.emptyLineRemoval]).minify
      ("a\n\nb".data)
      ≠ (create_custom_minifier name exts []).minify ("a\n\nb".data) := by
  refine ⟨?_, rfl, ?_⟩
  · simp [create_custom_minifier, CustomMinifier.minify, MinificationAction.apply,
      applyListAux]
  · show (MinificationAction.composite [MinificationAction.emptyLineRemoval]).apply
        ("a\n\nb".data)
      ≠ (MinificationAction.composite []).apply ("a\n\nb".data)
    simp only [MinificationAction.apply, applyListAux]
    decide

/-- For a one-character separator, dropping the last character of a line that
ends with it removes exactly the separator. -/
theorem lineContrib_one_char (c : Char) (l : Str) :
    lineContrib [c] l = stripTrailingSep [c] l := by
  unfold lineContrib stripTrailingSep
  by_cases h : pyEndsWith l [c] <;> simp [h, List.dropLast_eq_take]

/-- The join loop of the source equals the spec's join when each line's
contribution agrees. -/
theorem joinContrib_spec (sep : Str)
    (hc : ∀ l, lineContrib sep l = stripTrailingSep sep l) :
    ∀ ls, joinContrib sep ls = specJoin sep (ls.map (stripTrailingSep sep)) := by
  intro ls
  induction ls with
  | nil => rfl
  | cons l rest ih =>
    cases rest with
    | nil => simp [joinContrib, specJoin, hc]
    | cons l' rest' =>
      simp only [joinContrib, List.map_cons, specJoin, hc]
      rw [ih]
      simp [List.map_cons]

/-- C6: `LineJoining(';').apply("a;\nb\nc;") = "a;b;c"`; in general, with the
separator `';'`, `apply` drops blank lines, trims the remaining lines, strips
the trailing separator from a line already ending with it, and joins with the
separator. -/
theorem c6_line_joining (t : Str) :
    lineJoiningApply ([';']) ("a;\nb\nc;".data) = ("a;b;c".data)
  ∧ lineJoiningApply ([';']) t = lineJoinSpec ([';']) t := by
  constructor
  · decide
  · unfold lineJoiningApply lineJoinSpec
    rw [joinContrib_spec ([';']) (lineContrib_one_char ';')]

/-- A newline-free string splits into the single line that is itself. -/
theorem splitNL_no_nl : ∀ l : List Char, (l.all (fun c => c ≠ '\n')) = true →
    splitNL l = [l] := by
  intro l
  induction l with
  | nil => intro h; rfl
  | cons c rest ih =>
    intro h
    simp only [List.all_cons, Bool.and_eq_true] at h
    have hc : ¬ (c = '\n') := by
      intro hceq
      rw [hceq] at h
      simp at h
    rw [splitNL.eq_def]
    simp only [if_neg hc]
    rw [ih (by simp_all)]

/-- `isPre p (p ++ x)` always holds. -/
theorem isPre_append_self : ∀ (p x : List Char), isPre p (p ++ x) = true := by
  intro p
  induction p with
  | nil => intro x; rfl
  | cons a as ih =>
    intro x
    simp [isPre, ih]

/-- A string with `sep` appended ends with `sep`. -/
theorem pyEndsWith_append_self (m sep : List Char) :
    pyEndsWith (m ++ sep) sep = true := by
  unfold pyEndsWith
  rw [List.reverse_append]
  exact isPre_append_self sep.reverse m.reverse

/-- C10: for a separator of length greater than one, a retained line ending
with the separator loses only its single final character, so the whole
separator is not removed; exactly for one-character separators does the
suppression remove the entire separator. -/
theorem c10_multichar_separator (sep m : Str)
    (hsep : sep ≠ [])
    (hnl : ((m ++ sep).all (fun c => c ≠ '\n')) = true)
    (hstrip : pyStrip (m ++ sep) = m ++ sep) :
    lineJoiningApply sep (m ++ sep) = m ++ sep.dropLast
  ∧ (sep.length = 1 → lineJoiningApply sep (m ++ sep) = m)
  ∧ (1 < sep.length → lineJoiningApply sep (m ++ sep) ≠ m) := by
  have happ : lineJoiningApply sep (m ++ sep) = m ++ sep.dropLast := by
    unfold lineJoiningApply
    rw [splitNL_no_nl (m ++ sep) hnl]
    have hne : ((m ++ sep).isEmpty) = false := by
      cases hms : m ++ sep with
      | nil => exact absurd (List.append_eq_nil.mp hms).2 hsep
      | cons a l => rfl
    simp only [List.filter, hstrip, hne, Bool.not_false, List.map_cons, List.map_nil]
    unfold joinContrib lineContrib
    rw [if_pos (pyEndsWith_append_self m sep)]
    exact List.dropLast_append_of_ne_nil m hsep
  refine ⟨happ, ?_, ?_⟩
  · intro h1
    rw [happ]
    have : sep.dropLast = [] := by
      rw [List.dropLast_eq_take, h1]
      simp
    rw [this, List.append_nil]
  · intro h2
    rw [happ]
    intro heq
    have hlen := congrArg List.length heq
    simp [List.length_dropLast] at hlen
    omega

/-- Witness for C10 at `sep = ";;"`, line `"a;;"`: only the final `';'` is
removed, and the result differs from removing the whole separator. -/
theorem c10_multichar_separator_witness :
    lineJoiningApply ([';', ';']) (['a'] ++ [';', ';']) = ['a'] ++ [';']
  ∧ (1 < ([';', ';'] : Str).length →
      lineJoiningApply ([';', ';']) (['a'] ++ [';', ';']) ≠ ['a']) := by
  have h := c10_multichar_separator ([';', ';']) (['a'])
    (by decide) (by decide) (by decide)
  exact ⟨h.1, h.2.2⟩

/-- Whether a factory result is the `UnknownActionKind` failure. -/
def exceptIsError : Except Str MinificationAction → Bool
  | .error _ => true
  | .ok _ => false

/-- C7 counterexample: supplying the empty string as the name of a recognized
kind does not override the action's name — Python's `if name:` treats `""`
as absent, so the returned action keeps its class name. -/
theorem c7_factory_counterexample :
    create_action ("whitespace".data) (some []) defaultKwargs
      = .ok (.whitespaceReduction false)
  ∧ (MinificationAction.whitespaceReduction false).name
      = ("WhitespaceReductionAction".data)
  ∧ ("WhitespaceReductionAction".data) ≠ ([] : Str) := by
  refine ⟨rfl, rfl, ?_⟩
  decide

/-- C7 (amended): `create_action` fails exactly when the type tag is not one
of the five recognized kinds; supplying a non-empty name for a recognized
kind yields the named wrapper, whose name is the supplied one and whose
`apply` agrees with the underlying action on every input. -/
theorem c7_factory_amended (ty : Str) (kw : ActionKwargs) (nm : Str)
    (hnm : nm ≠ []) (hty : ty ∈ knownActionTypes) :
    (∀ (ty' : Str) (nmo : Option Str) (kw' : ActionKwargs),
      exceptIsError (create_action ty' nmo kw') = true ↔ ty' ∉ knownActionTypes)
  ∧ create_action ty (some nm) kw = .ok (.named (buildActionOfType ty kw) nm)
  ∧ (MinificationAction.named (buildActionOfType ty kw) nm).name = nm
  ∧ ∀ s : Str, (MinificationAction.named (buildActionOfType ty kw) nm).apply s
      = (buildActionOfType ty kw).apply s := by
  refine ⟨?_, ?_, ?_, ?_⟩
  · intro ty' nmo kw'
    unfold create_action
    by_cases h : ty' ∈ knownActionTypes
    · simp only [if_pos h]
      cases nmo with
      | none => simp [exceptIsError, h]
      | some n =>
        by_cases hn : n.isEmpty <;> simp [exceptIsError, h, hn]
    · simp [if_neg h, exceptIsError, h]
  · unfold create_action
    rw [if_pos hty]
    have : nm.isEmpty = false := by
      cases nm with
      | nil => exact absurd rfl hnm
      | cons a l => rfl
    simp [this]
  · rfl
  · intro s
    rfl

/-- Witness for the amended C7 at `typeTag = "whitespace"`, `name = "X"`. -/
theorem c7_factory_amended_witness :
    create_action ("whitespace".data) (some ("X".data)) defaultKwargs
      = .ok (.named (buildActionOfType ("whitespace".data) defaultKwargs) ("X".data))
  ∧ (MinificationAction.named (buildActionOfType ("whitespace".data) defaultKwargs)
      ("X".data)).name = ("X".data) := by
  have h := c7_factory_amended ("whitespace".data) defaultKwargs ("X".data)
    (by decide) (by decide)
  exact ⟨h.2.1, h.2.2.1⟩

/-- The files the walk counts as skipped in the source: in a directory not
on the skip list, with `.min.` in the filename. -/
def walkSkipMarked (skips : List Str) (f : Str × Str) : Bool :=
  !(skips.any (fun sk => (findSub sk f.1).isSome))
    && (findSub ((".min.".data)) f.2).isSome

theorem jobExecute_writes_length {fs : List (Str × Str)} {mf : Str → Str}
    {p sfx : Str} {b : Bool} {fs' ws : List (Str × Str)}
    (h : jobExecute fs mf p sfx = some (b, fs', ws)) :
    ws.length = (if b then 1 else 0) := by
  unfold jobExecute at h
  split at h
  · cases h
  · dsimp only at h
    split at h
    · split at h
      · cases h; rfl
      · cases h; rfl
    · cases h; rfl

theorem minifyStep_skipped (registry : Str → Option (Str → Str))
    (skips exts : List Str) (suffix : Str) (st : ProjState) (f : Str × Str) :
    (minifyStep registry skips exts suffix st f).skipped
      = st.skipped + (if walkSkipMarked skips f then 1 else 0) := by
  unfold minifyStep
  by_cases h1 : (skips.any (fun sk => (findSub sk f.1).isSome)) = true
  · simp [walkSkipMarked, h1]
  · by_cases h2 : ((findSub ((".min.".data)) f.2).isSome) = true
    · simp [walkSkipMarked, h1, h2]
    · simp only [walkSkipMarked, h1, h2, Bool.false_eq_true, if_false,
        Bool.not_false, Bool.true_and, Nat.add_zero]
      split
      · split
        · split
          · split <;> rfl
          · rfl
        · rfl
      · rfl

theorem minifyStep_pw (registry : Str → Option (Str → Str))
    (skips exts : List Str) (suffix : Str) (st : ProjState) (f : Str × Str)
    (h : st.processed = st.writes.length) :
    (minifyStep registry skips exts suffix st f).processed
      = (minifyStep registry skips exts suffix st f).writes.length := by
  unfold minifyStep
  dsimp only
  split
  · exact h
  · split
    · exact h
    · split
      · split
        · split
          · next wrote fs' ws heq =>
            have hws := jobExecute_writes_length heq
            split
            · next hwrote =>
              rw [hwrote] at hws
              simp [h, hws]
            · exact h
          · exact h
        · exact h
      · exact h

theorem minify_fold_skipped (registry : Str → Option (Str → Str))
    (skips exts : List Str) (suffix : Str) :
    ∀ (files : List (Str × Str)) (st : ProjState),
      (files.foldl (minifyStep registry skips exts suffix) st).skipped
        = st.skipped + (files.filter (walkSkipMarked skips)).length := by
  intro files
  induction files with
  | nil => intro st; simp
  | cons f rest ih =>
    intro st
    simp only [List.foldl_cons, List.filter]
    rw [ih, minifyStep_skipped]
    by_cases hf : walkSkipMarked skips f = true
    · simp [hf]
      omega
    · simp [hf]

theorem minify_fold_pw (registry : Str → Option (Str → Str))
    (skips exts : List Str) (suffix : Str) :
    ∀ (files : List (Str × Str)) (st : ProjState),
      st.processed = st.writes.length →
      (files.foldl (minifyStep registry skips exts suffix) st).processed
        = (files.foldl (minifyStep registry skips exts suffix) st).writes.length := by
  intro files
  induction files with
  | nil => intro st h; simpa using h
  | cons f rest ih =>
    intro st h
    simp only [List.foldl_cons]
    exact ih _ (minifyStep_pw registry skips exts suffix st f h)

/-- Registry of the C9 counterexample: every extension maps to the identity
minifier. -/
def c9registry : Str → Option (Str → Str) := fun _ => some (fun s => s)

/-- Walk of the C9 counterexample: one file `root/a.py`. -/
def c9files : List (Str × Str) := [(("root".data), ("a.py".data))]

/-- File system of the C9 counterexample: the source file and an already
up-to-date minified output. -/
def c9fs : List (Str × Str) :=
  [(("root/a.py".data), ("x".data)), (("root/a.min.py".data), ("x".data))]

/-- C9 counterexample: an eligible file whose derived-path output already
exists with byte-identical content is skipped without a write, yet the
returned pair is `(0, 0)` — the identical-content skip is not counted in
`skippedCount`, while the claim's skip count is `1`. -/
theorem c9_project_counts_counterexample :
    (minify_project c9registry [("__pycache__".data)] [(".py".data)] (".min".data)
        c9files c9fs).processed = 0
  ∧ (minify_project c9registry [("__pycache__".data)] [(".py".data)] (".min".data)
        c9files c9fs).skipped = 0
  ∧ (minify_project c9registry [("__pycache__".data)] [(".py".data)] (".min".data)
        c9files c9fs).writes = []
  ∧ claimSkippedCount c9registry [("__pycache__".data)] [(".py".data)] (".min".data)
        c9files c9fs = 1 := by
  refine ⟨rfl, rfl, rfl, rfl⟩

/-- C9 (amended): the project-level minify returns `(processedCount,
skippedCount)` where `skippedCount` counts exactly the walked files (in
non-skip-listed directories) whose filename contains the literal `.min.`;
a file whose derived-path output already exists with byte-identical content
is written to neither counter; `processedCount` equals the number of files
actually written. -/
theorem c9_project_counts_amended (registry : Str → Option (Str → Str))
    (skips exts : List Str) (suffix : Str) (files fs0 : List (Str × Str)) :
    (minify_project registry skips exts suffix files fs0).skipped
      = (files.filter (walkSkipMarked skips)).length
  ∧ (minify_project registry skips exts suffix files fs0).processed
      = (minify_project registry skips exts suffix files fs0).writes.length := by
  unfold minify_project
  constructor
  · rw [minify_fold_skipped]
    simp
  · exact minify_fold_pw registry skips exts suffix files _ rfl
